import Mathlib

/-!
Shallow embedding of the core of `etherscan-downloader` (`main.go`):
the response-shape normalization logic consisting of `getRawContractCode`
(the decision logic of the Fetcher after the body has been read) and
`parseContractCode` (the Normalizer).

Modelling conventions:
* Go strings are modelled as Lean `String` values; the Go byte-positional `len` and
  slicing are modelled on the character sequence `String.data` (exact for
  single-byte text).
* The two calls into `encoding/json` (`json.Decoder.Decode` into `Response`
  and `json.Unmarshal` into `SourceCode`) are external library calls; they
  are modelled as decoder parameters `String → Option Response` and
  `String → Option SourceCode` (`none` = the call returned a non-nil error,
  `some v` = it succeeded and filled the struct with `v`).
* A Go function returning `(T, error)` is modelled as `T × Option String`;
  a nil error is `none`.  A function that can additionally panic (the
  out-of-range slice in `parseContractCode`) returns `GoResult T`.
* Go zero values are the field defaults of the structures below
  (empty string, empty list, `none`, `false`).
-/

/-- One value of the `sources` map: `type Contract struct { Content string }`. -/
structure Contract where
  content : String := ""
deriving Repr, DecidableEq

/-- `type Sources map[string]*Contract`, modelled as an association list. -/
abbrev Sources := List (String × Contract)

/-- `type Optimizer struct { Enabled bool; Runs int }`. -/
structure Optimizer where
  enabled : Bool := false
  runs : Int := 0
deriving Repr, DecidableEq

/-- `type OutputSelection map[string]map[string][]string`. -/
abbrev OutputSelection := List (String × List (String × List String))

/-- `type Settings struct`.  `Libraries` is `interface{}` in the source — an
opaque JSON value carried through uninterpreted — modelled as the raw text it
would hold. -/
structure Settings where
  optimizer : Option Optimizer := none
  outputSelection : OutputSelection := []
  libraries : Option String := none
deriving Repr, DecidableEq

/-- `type SourceCode struct` — the decoded standard-json-input document
(a SourceBundle in the words of the spec). -/
structure SourceCode where
  language : String := ""
  sources : Sources := []
  settings : Settings := {}
deriving Repr, DecidableEq

instance : Inhabited SourceCode := ⟨{}⟩

/-- `type RawCode struct` — one result unit from the explorer (a RawEntry in
the words of the spec).  Field defaults are Go zero values. -/
structure RawCode where
  sourceCode : String := ""
  abi : String := ""
  contractName : String := ""
  compilerVersion : String := ""
  optimizationUsed : String := ""
  runs : String := ""
  constructorArguments : String := ""
  evmVersion : String := ""
  library : String := ""
  licenseType : String := ""
  proxy : String := ""
  implementation : String := ""
  swarmSource : String := ""
  isOneSource : Bool := false
deriving Repr, DecidableEq

instance : Inhabited RawCode := ⟨{}⟩

/-- `type Response struct` — the outer API envelope. -/
structure Response where
  status : String := ""
  message : String := ""
  codes : List RawCode := []
deriving Repr, DecidableEq

/-- Result of a Go function returning `(α, error)` that may also panic. -/
inductive GoResult (α : Type) where
  | panics : GoResult α
  | ok : α → Option String → GoResult α
deriving Repr, DecidableEq

/-- The positional slice `rawCode.SourceCode[1 : len(rawCode.SourceCode)-1]`.
In Go this panics when the length is 0 (high index `-1` out of range) or 1
(low index 1 exceeds high index 0); `none` models the panic. -/
def stripOuter (s : String) : Option String :=
  if 2 ≤ s.length then some (String.mk ((s.data.drop 1).dropLast)) else none

/-- The fallback bundle `&SourceCode{Sources: Sources{"main.sol":
&Contract{Content: ...}}}` built from the raw source text of an entry; all other
fields are Go zero values.  The same literal shape is used by the
single-flat-source special case and by the decode-failure fallback. -/
def fallbackBundle (rc : RawCode) : SourceCode :=
  { sources := [("main.sol", { content := rc.sourceCode })] }

/-- What the inner `json.Unmarshal` yields for one entry: strip one character
from each end, then decode; `none` if either the strip would panic or the
decode errors. -/
def decodedOf (dec : String → Option SourceCode) (rc : RawCode) : Option SourceCode :=
  (stripOuter rc.sourceCode).bind dec

/-- The `for _, rawCode := range rawCodes` loop of `parseContractCode`.
`first` is `rawCodes[0]` (the full list is nonempty whenever the loop body
runs), `acc` is the `sourceCodes` slice built so far. -/
def parseLoop (dec : String → Option SourceCode) (first : RawCode) :
    List RawCode → List SourceCode → GoResult (List SourceCode)
  | [], acc => .ok acc none
  | rc :: rest, acc =>
    match stripOuter rc.sourceCode with
    | none => .panics
    | some stripped =>
      match dec stripped with
      | none => .ok [fallbackBundle first] none
      | some sc => parseLoop dec first rest (acc ++ [sc])

/-- `func parseContractCode(rawCodes []*RawCode) ([]*SourceCode, error)` —
the Normalizer, parameterized by the inner JSON decoder. -/
def parseContractCode (dec : String → Option SourceCode) (rawCodes : List RawCode) :
    GoResult (List SourceCode) :=
  match rawCodes with
  | [] => .ok [] none
  | first :: rest =>
    if rest.isEmpty && first.isOneSource then
      .ok [fallbackBundle first] none
    else
      parseLoop dec first (first :: rest) []

/-- `func getRawContractCode` from the point where the whole body has been
read into `bs`, parameterized by the envelope decoder.  The source formats
the error with `fmt.Errorf("bad status: %s, message: %s", Status, Status)` —
the translation keeps the argument order of the source, which passes `Status` for
both verbs. -/
def getRawContractCode (decEnv : String → Option Response) (body : String) :
    List RawCode × Option String :=
  match decEnv body with
  | none => ([{ sourceCode := body, isOneSource := true }], none)
  | some resp =>
    if resp.status ≠ "1" then
      ([], some ("bad status: " ++ resp.status ++ ", message: " ++ resp.status))
    else
      (resp.codes, none)


/-- A sample inner decoder used by concrete witnesses: succeeds on the two
inner documents `"X"` and `"Y"`, fails elsewhere. -/
def decPair : String → Option SourceCode := fun s =>
  if s = "X" then some { sources := [("A.sol", { content := "aa" })] }
  else if s = "Y" then some { sources := [("B.sol", { content := "bb" })] }
  else none

/-- A sample inner decoder used by concrete witnesses: succeeds on every
inner document, echoing it as the single source. -/
def decEcho : String → Option SourceCode := fun s =>
  some { sources := [("main.sol", { content := s })] }

theorem parseLoop_shape (dec : String → Option SourceCode) (first : RawCode) :
    ∀ (entries : List RawCode) (acc : List SourceCode),
    parseLoop dec first entries acc = .panics ∨
    ∃ out, parseLoop dec first entries acc = .ok out none := by
  intro entries
  induction entries with
  | nil => intro acc; exact .inr ⟨acc, rfl⟩
  | cons rc rest ih =>
    intro acc
    cases hstrip : stripOuter rc.sourceCode with
    | none => exact .inl (by simp [parseLoop, hstrip])
    | some stripped =>
      cases hdec : dec stripped with
      | none => exact .inr ⟨[fallbackBundle first], by simp [parseLoop, hstrip, hdec]⟩
      | some sc =>
        have hres := ih (acc ++ [sc])
        simp only [parseLoop, hstrip, hdec]
        exact hres

theorem parseLoop_all (dec : String → Option SourceCode) (first : RawCode) :
    ∀ (entries : List RawCode),
    (∀ rc ∈ entries, (decodedOf dec rc).isSome) →
    ∀ acc, parseLoop dec first entries acc =
      .ok (acc ++ entries.map fun rc => (decodedOf dec rc).getD default) none := by
  intro entries
  induction entries with
  | nil => intro _ acc; simp [parseLoop]
  | cons rc rest ih =>
    intro h acc
    have hrc := h rc (by simp)
    obtain ⟨sc, hsc⟩ := Option.isSome_iff_exists.mp hrc
    unfold decodedOf at hsc
    cases hstrip : stripOuter rc.sourceCode with
    | none => rw [hstrip] at hsc; simp at hsc
    | some stripped =>
      rw [hstrip] at hsc
      simp only [Option.some_bind] at hsc
      simp only [parseLoop, hstrip, hsc]
      rw [ih (fun x hx => h x (by simp [hx])) (acc ++ [sc])]
      simp [decodedOf, hstrip, hsc]

theorem parseLoop_fail (dec : String → Option SourceCode) (first : RawCode) :
    ∀ (entries : List RawCode),
    (∀ rc ∈ entries, (stripOuter rc.sourceCode).isSome) →
    (∃ rc ∈ entries, decodedOf dec rc = none) →
    ∀ acc, parseLoop dec first entries acc = .ok [fallbackBundle first] none := by
  intro entries
  induction entries with
  | nil => intro _ hfail acc; simp at hfail
  | cons rc rest ih =>
    intro hstrips hfail acc
    have hrc := hstrips rc (by simp)
    obtain ⟨stripped, hstrip⟩ := Option.isSome_iff_exists.mp hrc
    simp only [parseLoop, hstrip]
    cases hdec : dec stripped with
    | none => rfl
    | some sc =>
      have hrest : ∃ x ∈ rest, decodedOf dec x = none := by
        obtain ⟨x, hx, hxnone⟩ := hfail
        rcases List.mem_cons.mp hx with hxeq | hxmem
        · subst hxeq
          rw [decodedOf, hstrip] at hxnone
          simp [hdec] at hxnone
        · exact ⟨x, hxmem, hxnone⟩
      exact ih (fun x hx => hstrips x (by simp [hx])) hrest (acc ++ [sc])

theorem parseLoop_panics (dec : String → Option SourceCode) (short : RawCode)
    (rest : List RawCode) (hshort : short.sourceCode.length < 2) :
    ∀ (pre : List RawCode), (∀ rc ∈ pre, (decodedOf dec rc).isSome) →
    ∀ (first : RawCode) (acc : List SourceCode),
    parseLoop dec first (pre ++ short :: rest) acc = .panics := by
  intro pre
  induction pre with
  | nil =>
    intro _ first acc
    have : stripOuter short.sourceCode = none := by
      simp [stripOuter, Nat.not_le.mpr hshort]
    simp [parseLoop, this]
  | cons p ps ih =>
    intro hpre first acc
    have hp := hpre p (by simp)
    obtain ⟨v, hv⟩ := Option.isSome_iff_exists.mp hp
    rw [decodedOf] at hv
    cases hstrip : stripOuter p.sourceCode with
    | none => rw [hstrip] at hv; simp at hv
    | some stripped =>
      rw [hstrip] at hv
      simp only [Option.some_bind] at hv
      simp only [List.cons_append, parseLoop, hstrip, hv]
      exact ih (fun x hx => hpre x (by simp [hx])) first (acc ++ [v])

/-- Claim C1: outside the single-flat-source special case, if every entry can be
stripped but the stripped `sourceCode` of some entry fails the inner JSON decode,
`parseContractCode` returns (as a success, with nil error) exactly one bundle
whose sources hold only `"main.sol"` mapped to the raw, unstripped
`sourceCode` of the first entry — even when earlier entries decoded successfully. -/
theorem parseContractCode_global_fallback (dec : String → Option SourceCode)
    (first : RawCode) (rest : List RawCode)
    (hspec : ¬(rest = [] ∧ first.isOneSource = true))
    (hstrip : ∀ rc ∈ first :: rest, (stripOuter rc.sourceCode).isSome)
    (hfail : ∃ rc ∈ first :: rest, decodedOf dec rc = none) :
    parseContractCode dec (first :: rest) = .ok [fallbackBundle first] none ∧
    (fallbackBundle first).sources = [("main.sol", { content := first.sourceCode })] := by
  constructor
  · have hcond : (rest.isEmpty && first.isOneSource) = false := by
      cases rest with
      | nil =>
        have : first.isOneSource = false := by
          cases h1 : first.isOneSource
          · rfl
          · exact absurd ⟨rfl, h1⟩ hspec
        simp [this]
      | cons a l => simp
    simp only [parseContractCode, hcond, Bool.false_eq_true, if_false]
    exact parseLoop_fail dec first (first :: rest) hstrip hfail []
  · rfl

/-- Claim C2: outside the single-flat-source special case, if the stripped
`sourceCode` of every entry decodes successfully, `parseContractCode` succeeds with nil error
and returns, in input order, exactly the decoded documents — one bundle per
entry, each bundle being the decoded document of its entry. -/
theorem parseContractCode_all_structured (dec : String → Option SourceCode)
    (rawCodes : List RawCode)
    (hspec : ∀ rc ∈ rawCodes, rawCodes = [rc] → rc.isOneSource = false)
    (hall : ∀ rc ∈ rawCodes, (decodedOf dec rc).isSome) :
    parseContractCode dec rawCodes =
      .ok (rawCodes.map fun rc => (decodedOf dec rc).getD default) none ∧
    (rawCodes.map fun rc => (decodedOf dec rc).getD default).length = rawCodes.length := by
  refine ⟨?_, by simp⟩
  cases rawCodes with
  | nil => rfl
  | cons first rest =>
    have hcond : (rest.isEmpty && first.isOneSource) = false := by
      cases rest with
      | nil => simp [hspec first (by simp) rfl]
      | cons a l => simp
    simp only [parseContractCode, hcond, Bool.false_eq_true, if_false]
    rw [parseLoop_all dec first (first :: rest) hall []]
    simp

/-- Claim C3: for any string of length at least 2, the positional strip succeeds and
removes exactly one leading and one trailing character (whatever they are),
and the per-entry loop step hands exactly that stripped string to the inner
decoder: the outcome of the step is decided by the answer of the decoder on it. -/
theorem stripOuter_removes_one_char_each_end (s : String) (h : 2 ≤ s.length) :
    ∃ t, stripOuter s = some t ∧
      (∃ c d, s.data = c :: (t.data ++ [d])) ∧
      (∀ (dec : String → Option SourceCode) (first rc : RawCode)
          (rest : List RawCode) (acc : List SourceCode), rc.sourceCode = s →
        (dec t = none →
          parseLoop dec first (rc :: rest) acc = .ok [fallbackBundle first] none) ∧
        (∀ sc, dec t = some sc →
          parseLoop dec first (rc :: rest) acc = parseLoop dec first rest (acc ++ [sc]))) := by
  refine ⟨String.mk ((s.data.drop 1).dropLast), by simp [stripOuter, h], ?_, ?_⟩
  · have hlen : 2 ≤ s.data.length := h
    match hdata : s.data, hlen with
    | a :: b :: m, _ =>
      refine ⟨a, (b :: m).getLast (by simp), ?_⟩
      simp [List.dropLast_append_getLast]
  · intro dec first rc rest acc hrc
    subst hrc
    have hstrip : stripOuter rc.sourceCode =
        some (String.mk ((rc.sourceCode.data.drop 1).dropLast)) := by
      simp [stripOuter, h]
    constructor
    · intro hdec
      simp only [parseLoop, hstrip, hdec]
    · intro sc hdec
      simp only [parseLoop, hstrip, hdec]

/-- Claim C4: on a list holding exactly one entry whose known-single-flat-source
flag is set, `parseContractCode` returns — with nil error and for every
decoder, so no decode is consulted — one bundle whose sources hold only
`"main.sol"` mapped to the raw `sourceCode` of the entry, verbatim. -/
theorem parseContractCode_single_flat (dec : String → Option SourceCode)
    (rc : RawCode) (h : rc.isOneSource = true) :
    parseContractCode dec [rc] = .ok [fallbackBundle rc] none ∧
    (fallbackBundle rc).sources = [("main.sol", { content := rc.sourceCode })] := by
  refine ⟨?_, rfl⟩
  simp [parseContractCode, h]

/-- Claim C5: when the response body fails to decode as the Envelope shape,
`getRawContractCode` succeeds (nil error) with exactly one `RawCode` whose
`isOneSource` flag is set and whose `sourceCode` is the body verbatim. -/
theorem getRawContractCode_envelope_fallback (decEnv : String → Option Response)
    (body : String) (h : decEnv body = none) :
    getRawContractCode decEnv body = ([{ sourceCode := body, isOneSource := true }], none) := by
  simp [getRawContractCode, h]

/-- Claim C6, evaluated at a failing input.  The source formats the bad-status
error as `fmt.Errorf("bad status: %s, message: %s", Status, Status)`, passing
the status for both verbs, so for an envelope with status `"0"` and message
`"NOTOK"` the error text contains the status but not the message — contrary
to the documented intent of including both. -/
theorem getRawContractCode_bad_status_omits_message :
    getRawContractCode (fun _ => some { status := "0", message := "NOTOK" }) "x" =
      ([], some "bad status: 0, message: 0") ∧
    String.data "0" <:+: String.data "bad status: 0, message: 0" ∧
    ¬ (String.data "NOTOK" <:+: String.data "bad status: 0, message: 0") := by
  exact ⟨rfl, by decide, by decide⟩

/-- Claim C7, counterexample: two entries whose stripped sources both fail to decode
yield one fallback bundle, so the output count (1) differs from the input
count (2) — refuting "the number of SourceBundles returned equals the number
of RawEntry items" as a universal statement. -/
theorem parseContractCode_count_counterexample :
    parseContractCode (fun _ => none) [{ sourceCode := "ab" }, { sourceCode := "cd" }] =
      .ok [fallbackBundle { sourceCode := "ab" }] none ∧
    [fallbackBundle ({ sourceCode := "ab" } : RawCode)].length = 1 ∧
    ([{ sourceCode := "ab" }, { sourceCode := "cd" }] : List RawCode).length = 2 := by
  exact ⟨rfl, rfl, rfl⟩

/-- Claim C7, amended: when the stripped `sourceCode` of every entry decodes successfully
(so neither the panic nor the decode-failure fallback can trigger),
`parseContractCode` returns with nil error exactly as many bundles as there
are input entries; this also covers the single-flat special case. -/
theorem parseContractCode_count_preserved (dec : String → Option SourceCode)
    (rawCodes : List RawCode)
    (hall : ∀ rc ∈ rawCodes, (decodedOf dec rc).isSome) :
    ∃ out, parseContractCode dec rawCodes = .ok out none ∧
      out.length = rawCodes.length := by
  cases rawCodes with
  | nil => exact ⟨[], rfl, rfl⟩
  | cons first rest =>
    cases hcond : rest.isEmpty && first.isOneSource with
    | true =>
      refine ⟨[fallbackBundle first], ?_, ?_⟩
      · simp [parseContractCode, hcond]
      · cases rest with
        | nil => rfl
        | cons a l => simp at hcond
    | false =>
      refine ⟨(first :: rest).map fun rc => (decodedOf dec rc).getD default, ?_, by simp⟩
      simp only [parseContractCode, hcond, Bool.false_eq_true, if_false]
      rw [parseLoop_all dec first (first :: rest) hall []]
      simp

/-- Claim C8, counterexample: a decoder modelling `json.Unmarshal` succeeding on the
inner document `"\x7b\x7d"` (the stripped form of the entry text) with the
zero-value document yields a returned bundle whose sources mapping is empty —
refuting "every SourceBundle has at least one entry". -/
theorem parseContractCode_empty_sources_counterexample :
    parseContractCode (fun s => if s = "\x7b\x7d" then some {} else none)
        [{ sourceCode := "a\x7b\x7db" }] =
      .ok [({} : SourceCode)] none ∧
    ({} : SourceCode).sources = [] := by
  exact ⟨rfl, rfl⟩

/-- Claim C8, amended: every bundle returned by `parseContractCode` has at least one
entry in its sources mapping provided every document the inner decoder
produces has a nonempty sources mapping; the fallback bundles (single-flat
special case and decode-failure fallback) always carry the one synthetic
`"main.sol"` entry. -/
theorem parseContractCode_bundles_nonempty (dec : String → Option SourceCode)
    (rawCodes : List RawCode) (out : List SourceCode) (err : Option String)
    (hdec : ∀ s sc, dec s = some sc → sc.sources ≠ [])
    (hrun : parseContractCode dec rawCodes = .ok out err) :
    ∀ b ∈ out, b.sources ≠ [] := by
  have hloop : ∀ (entries : List RawCode) (first : RawCode) (acc : List SourceCode),
      (∀ b ∈ acc, b.sources ≠ []) →
      parseLoop dec first entries acc = .ok out err →
      ∀ b ∈ out, b.sources ≠ [] := by
    intro entries
    induction entries with
    | nil =>
      intro first acc hacc hrun
      simp only [parseLoop, GoResult.ok.injEq] at hrun
      exact hrun.1 ▸ hacc
    | cons rc rest ih =>
      intro first acc hacc hrun
      cases hstrip : stripOuter rc.sourceCode with
      | none => simp [parseLoop, hstrip] at hrun
      | some stripped =>
        cases hde : dec stripped with
        | none =>
          simp only [parseLoop, hstrip, hde, GoResult.ok.injEq] at hrun
          intro b hb
          rw [← hrun.1] at hb
          simp only [List.mem_singleton] at hb
          subst hb
          simp [fallbackBundle]
        | some sc =>
          simp only [parseLoop, hstrip, hde] at hrun
          refine ih first (acc ++ [sc]) ?_ hrun
          intro b hb
          rcases List.mem_append.mp hb with hb | hb
          · exact hacc b hb
          · simp only [List.mem_singleton] at hb
            rw [hb]
            exact hdec stripped sc hde
  cases rawCodes with
  | nil =>
    simp only [parseContractCode, GoResult.ok.injEq] at hrun
    intro b hb
    rw [← hrun.1] at hb
    simp at hb
  | cons first rest =>
    cases hcond : rest.isEmpty && first.isOneSource with
    | true =>
      simp only [parseContractCode, hcond, if_true, GoResult.ok.injEq] at hrun
      intro b hb
      rw [← hrun.1] at hb
      simp only [List.mem_singleton] at hb
      subst hb
      simp [fallbackBundle]
    | false =>
      simp only [parseContractCode, hcond, Bool.false_eq_true, if_false] at hrun
      exact hloop (first :: rest) first [] (by simp) hrun

/-- Claim C9, counterexample: a list containing an entry of length 0 does not panic
when a decode failure on an earlier entry returns the fallback first — refuting
"any input list containing an entry of length 0 or 1 makes normalize panic". -/
theorem parseContractCode_short_entry_no_panic_counterexample :
    parseContractCode (fun _ => none) [{ sourceCode := "ab" }, { sourceCode := "" }] =
      .ok [fallbackBundle { sourceCode := "ab" }] none ∧
    ({ sourceCode := "" } : RawCode).sourceCode.length < 2 ∧
    parseContractCode (fun _ => none) [{ sourceCode := "ab" }, { sourceCode := "" }] ≠
      .panics := by
  refine ⟨rfl, by decide, by decide⟩

/-- Claim C9, amended: the panic occurs exactly when the per-entry loop reaches a
short entry: outside the single-flat special case, if some entry has
`sourceCode` of length 0 or 1 and every entry before it strips and decodes
successfully, `parseContractCode` panics on the out-of-range slice. -/
theorem parseContractCode_panics_when_short_reached (dec : String → Option SourceCode)
    (pre rest : List RawCode) (short : RawCode)
    (hspec : ¬(pre = [] ∧ rest = [] ∧ short.isOneSource = true))
    (hpre : ∀ rc ∈ pre, (decodedOf dec rc).isSome)
    (hshort : short.sourceCode.length < 2) :
    parseContractCode dec (pre ++ short :: rest) = .panics := by
  cases pre with
  | nil =>
    have hcond : (rest.isEmpty && short.isOneSource) = false := by
      cases rest with
      | nil =>
        have : short.isOneSource = false := by
          cases h1 : short.isOneSource
          · rfl
          · exact absurd ⟨rfl, rfl, h1⟩ hspec
        simp [this]
      | cons a l => simp
    simp only [List.nil_append, parseContractCode, hcond, Bool.false_eq_true, if_false]
    exact parseLoop_panics dec short rest hshort [] (by simp) short []
  | cons p ps =>
    have hcond : ((ps ++ short :: rest).isEmpty && p.isOneSource) = false := by
      simp
    simp only [List.cons_append, parseContractCode, hcond, Bool.false_eq_true, if_false]
    have : p :: (ps ++ short :: rest) = (p :: ps) ++ short :: rest := by simp
    rw [this]
    exact parseLoop_panics dec short rest hshort (p :: ps) hpre p []

/-- Claim C10: `parseContractCode` never returns a non-nil error: on every input it
either panics (short entry reached) or returns a result with nil error —
every inner-decode failure is absorbed by the fallback bundle. -/
theorem parseContractCode_never_errors (dec : String → Option SourceCode)
    (rawCodes : List RawCode) :
    parseContractCode dec rawCodes = .panics ∨
    ∃ out, parseContractCode dec rawCodes = .ok out none := by
  cases rawCodes with
  | nil => exact .inr ⟨[], rfl⟩
  | cons first rest =>
    cases hcond : rest.isEmpty && first.isOneSource with
    | true =>
      refine .inr ⟨[fallbackBundle first], ?_⟩
      simp [parseContractCode, hcond]
    | false =>
      simp only [parseContractCode, hcond, Bool.false_eq_true, if_false]
      exact parseLoop_shape dec first (first :: rest) []

/-- Witness for C1 at a concrete input: entry 1 decodes, entry 2 fails. -/
theorem parseContractCode_global_fallback_witness :
    parseContractCode decPair [{ sourceCode := "aXb" }, { sourceCode := "cd" }] =
      .ok [fallbackBundle { sourceCode := "aXb" }] none ∧
    (fallbackBundle ({ sourceCode := "aXb" } : RawCode)).sources =
      [("main.sol", { content := "aXb" })] :=
  parseContractCode_global_fallback decPair { sourceCode := "aXb" } [{ sourceCode := "cd" }]
    (by decide) (by decide) (by decide)

/-- Witness for C2 at a concrete input: both entries decode. -/
theorem parseContractCode_all_structured_witness :
    parseContractCode decPair [{ sourceCode := "aXb" }, { sourceCode := "cYd" }] =
      .ok (([{ sourceCode := "aXb" }, { sourceCode := "cYd" }] : List RawCode).map fun rc =>
          (decodedOf decPair rc).getD default) none ∧
    (([{ sourceCode := "aXb" }, { sourceCode := "cYd" }] : List RawCode).map fun rc =>
          (decodedOf decPair rc).getD default).length =
      ([{ sourceCode := "aXb" }, { sourceCode := "cYd" }] : List RawCode).length :=
  parseContractCode_all_structured decPair [{ sourceCode := "aXb" }, { sourceCode := "cYd" }]
    (by decide) (by decide)

/-- Witness for C3 at the concrete string "abc". -/
theorem stripOuter_removes_one_char_each_end_witness :
    ∃ t, stripOuter "abc" = some t ∧
      (∃ c d, String.data "abc" = c :: (t.data ++ [d])) ∧
      (∀ (dec : String → Option SourceCode) (first rc : RawCode)
          (rest : List RawCode) (acc : List SourceCode), rc.sourceCode = "abc" →
        (dec t = none →
          parseLoop dec first (rc :: rest) acc = .ok [fallbackBundle first] none) ∧
        (∀ sc, dec t = some sc →
          parseLoop dec first (rc :: rest) acc = parseLoop dec first rest (acc ++ [sc]))) :=
  stripOuter_removes_one_char_each_end "abc" (by decide)

/-- Witness for C4 at a concrete flagged single entry. -/
theorem parseContractCode_single_flat_witness :
    parseContractCode (fun _ => none) [{ sourceCode := "hello", isOneSource := true }] =
      .ok [fallbackBundle { sourceCode := "hello", isOneSource := true }] none ∧
    (fallbackBundle ({ sourceCode := "hello", isOneSource := true } : RawCode)).sources =
      [("main.sol", { content := "hello" })] :=
  parseContractCode_single_flat (fun _ => none) { sourceCode := "hello", isOneSource := true }
    rfl

/-- Witness for C5 at a concrete non-envelope body. -/
theorem getRawContractCode_envelope_fallback_witness :
    getRawContractCode (fun _ => none) "plain text" =
      ([{ sourceCode := "plain text", isOneSource := true }], none) :=
  getRawContractCode_envelope_fallback (fun _ => none) "plain text" rfl

/-- Witness for the amended C7 at a concrete all-decoding input. -/
theorem parseContractCode_count_preserved_witness :
    ∃ out, parseContractCode decEcho [{ sourceCode := "ab" }] = .ok out none ∧
      out.length = ([{ sourceCode := "ab" }] : List RawCode).length :=
  parseContractCode_count_preserved decEcho [{ sourceCode := "ab" }] (by decide)

/-- Witness for the amended C8 at a concrete input and returned bundle. -/
theorem parseContractCode_bundles_nonempty_witness :
    ({ sources := [("main.sol", { content := "" })] } : SourceCode).sources ≠ [] :=
  parseContractCode_bundles_nonempty decEcho [{ sourceCode := "ab" }]
    [{ sources := [("main.sol", { content := "" })] }] none
    (fun s sc h => by
      simp only [decEcho, Option.some.injEq] at h
      rw [← h]
      simp)
    rfl
    { sources := [("main.sol", { content := "" })] } (by simp)

/-- Witness for the amended C9 at a concrete input: the first entry decodes,
the second has length 1, and the run panics. -/
theorem parseContractCode_panics_when_short_reached_witness :
    parseContractCode decEcho [{ sourceCode := "ab" }, { sourceCode := "x" }] = .panics :=
  parseContractCode_panics_when_short_reached decEcho
    [{ sourceCode := "ab" }] [] { sourceCode := "x" } (by decide) (by decide) (by decide)
